import Mathlib

/-!
Verification of the jump-file scanning core of the `jira-helper` repository.

The embedding models, faithfully to the TypeScript source:
* `parseFileName`        — the filename-grammar parser (route handler, `parseFileName`),
* `parseJumpFileContent` — the body-line parser (`parseJumpFileContent`), including the
  construction of the track regular expression from the escaped session name,
* `scanDirectory`        — the recursive tree scan over a model filesystem (`scanDirectory`),
* `summaryOf`            — the summary statistics of the `GET` handler,
* `filteredFiles`        — the filter/sort engine of `page.tsx` (`filteredFiles`),
* `normalizeSubtasks`    — the subtask-key normalization of the `GET` handler.

JavaScript strings are modelled as `String`/`List Char` (code points; the repository's
data is ASCII so UTF-16 unit order and code-point order agree); JavaScript `Array.sort`
(a stable sort) is modelled by `List.insertionSort`, which is also stable; regular
expressions are modelled by hand-rolled matchers whose determinism mirrors the forced
backtracking of the anchored patterns used by the source.
-/

namespace JumpScan

/-- `(cs.takeWhile q, cs.dropWhile q)`: the maximal leading run of characters
satisfying `q`, together with the remainder.  This is the semantics of a greedy
character-class quantifier (`[^_]+`, `\d+`) whose class excludes the character
that the pattern requires next, so the regex engine can never backtrack into it. -/
def takeRun (q : Char → Bool) (cs : List Char) : List Char × List Char :=
  (cs.takeWhile q, cs.dropWhile q)

/-- Literal-string match at the head of a character list. -/
def startsWithL : List Char → List Char → Bool
  | [], _ => true
  | _ :: _, [] => false
  | p :: ps, c :: cs => p == c && startsWithL ps cs

/-- Model of JavaScript `String.prototype.trim` (whitespace at both ends removed). -/
def jsTrim (cs : List Char) : List Char :=
  ((cs.dropWhile Char.isWhitespace).reverse.dropWhile Char.isWhitespace).reverse

/-- Accumulator-based splitting on whitespace runs, dropping empty tokens:
the behaviour of `String.prototype.split(/\s+/)` on a trimmed string. -/
def splitWsAux (acc : List Char) : List Char → List (List Char)
  | [] => if acc.isEmpty then [] else [acc.reverse]
  | c :: rest =>
    if c.isWhitespace then
      if acc.isEmpty then splitWsAux [] rest else acc.reverse :: splitWsAux [] rest
    else splitWsAux (c :: acc) rest

/-- Split on whitespace runs (no empty tokens), as `split(/\s+/)` on trimmed input. -/
def splitWs (cs : List Char) : List (List Char) :=
  splitWsAux [] cs

/-- Accumulator-based splitting on `'\n'`, keeping empty pieces:
the behaviour of `String.prototype.split('\n')`. -/
def splitLinesAux (acc : List Char) : List Char → List (List Char)
  | [] => [acc.reverse]
  | c :: rest =>
    if c = '\n' then acc.reverse :: splitLinesAux [] rest
    else splitLinesAux (c :: acc) rest

/-- Split on `'\n'`, keeping empty pieces, as `content.split('\n')`. -/
def splitLines (cs : List Char) : List (List Char) :=
  splitLinesAux [] cs

/-- `eventParts.join(' ')`: join token lists with single spaces. -/
def joinSpaces : List (List Char) → List Char
  | [] => []
  | [x] => x
  | x :: y :: rest => x ++ ' ' :: joinSpaces (y :: rest)

/-- `clipNumber.padStart(4, '0')`: left-pad with `'0'` to width 4; a string already
of length ≥ 4 is returned unchanged. -/
def padClip (clip : List Char) : List Char :=
  if 4 ≤ clip.length then clip else List.replicate (4 - clip.length) '0' ++ clip

/-- JavaScript `s.replace(pat, '')` with a *string* pattern: only the first
occurrence of `pat` (anywhere in `s`, case-sensitively) is removed. -/
def replaceFirst : List Char → List Char → List Char
  | [], _ => []
  | c :: rest, pat =>
    if startsWithL pat (c :: rest) then (c :: rest).drop pat.length
    else c :: replaceFirst rest pat

/-- `[...new Set(xs)]`: de-duplication preserving first-seen order. -/
def jsSetDedupAux (seen : List String) : List String → List String
  | [] => []
  | x :: xs =>
    if seen.contains x then jsSetDedupAux seen xs
    else x :: jsSetDedupAux (x :: seen) xs

/-- `[...new Set(xs)]`: de-duplication preserving first-seen order. -/
def jsSetDedup (l : List String) : List String :=
  jsSetDedupAux [] l

/-! ### The filename-grammar parser (`parseFileName`) -/

/-- Metadata extracted from a matching filename (source interface
`JumpFileMetadata`, restricted to the fields the parser produces). -/
structure JumpFileMetadata where
  project : String
  vehicle : String
  date : String
  time : String
  swVersion : String
  createDate : String
  datacoNumber : String
  sessionName : String
deriving DecidableEq, Repr

/-- `([^_]+)_`: a maximal nonempty run of non-underscore characters followed by a
consumed underscore.  Deterministic: the run cannot contain `'_'` and the pattern
requires `'_'` immediately after, so the regex engine's greedy match is forced. -/
def splitField (cs : List Char) : Option (List Char × List Char) :=
  match takeRun (fun c => c != '_') cs with
  | (p, '_' :: r) => if p.isEmpty then none else some (p, r)
  | _ => none

/-- `(\d{6})_`: exactly six digit characters followed by a consumed underscore. -/
def takeSix (cs : List Char) : Option (List Char × List Char) :=
  let d := cs.take 6
  if d.length = 6 && d.all Char.isDigit then
    match cs.drop 6 with
    | '_' :: r => some (d, r)
    | _ => none
  else none

/-- `(\d+)_`: a maximal nonempty digit run followed by a consumed underscore. -/
def takeDigitsU (cs : List Char) : Option (List Char × List Char) :=
  match takeRun Char.isDigit cs with
  | (d, '_' :: r) => if d.isEmpty then none else some (d, r)
  | _ => none

/-- `(\d+)`: a maximal nonempty digit run; the remainder is returned unconsumed. -/
def takeDigitsEnd (cs : List Char) : Option (List Char × List Char) :=
  let (d, r) := takeRun Char.isDigit cs
  if d.isEmpty then none else some (d, r)

/-- Consume a literal string. -/
def stripLit (lit cs : List Char) : Option (List Char) :=
  if startsWithL lit cs then some (cs.drop lit.length) else none

/-- `formatDate` from the source: a 6-character string `DDMMYY` becomes
`DD/MM/20YY`; any other length is passed through unchanged. -/
def formatDate (s : String) : String :=
  if s.length = 6 then
    ⟨s.data.take 2⟩ ++ "/" ++ ⟨(s.data.drop 2).take 2⟩ ++ "/" ++ ("20" ++ ⟨s.data.drop 4⟩)
  else s

/-- `formatTime` from the source: a 6-character string `HHMMSS` becomes
`HH:MM:SS`; any other length is passed through unchanged. -/
def formatTime (s : String) : String :=
  if s.length = 6 then
    ⟨s.data.take 2⟩ ++ ":" ++ ⟨(s.data.drop 2).take 2⟩ ++ ":" ++ ⟨s.data.drop 4⟩
  else s

/-- The filename parser: the anchored regular expression
`^([^_]+)_([^_]+)_(\d{6})_(\d{6})_(\d+)_(\d{6})_DATACO-(\d+)\.jump$`
matched against the whole filename, with the source's field construction:
formatted `date`/`time`/`createDate` and `sessionName` joined from the five
raw tokens.  Each quantified group of the pattern is forced (see `splitField`
etc.), so sequential parsing is exactly the regex semantics. -/
def parseFileName (fileName : String) : Option JumpFileMetadata := do
  let (project, r1) ← splitField fileName.data
  let (vehicle, r2) ← splitField r1
  let (dateRaw, r3) ← takeSix r2
  let (timeRaw, r4) ← takeSix r3
  let (sw, r5) ← takeDigitsU r4
  let (createRaw, r6) ← takeSix r5
  let r7 ← stripLit "DATACO-".data r6
  let (dn, r8) ← takeDigitsEnd r7
  if r8 = ".jump".data then
    some { project := ⟨project⟩, vehicle := ⟨vehicle⟩,
           date := formatDate ⟨dateRaw⟩, time := formatTime ⟨timeRaw⟩,
           swVersion := ⟨sw⟩, createDate := formatDate ⟨createRaw⟩,
           datacoNumber := ⟨dn⟩,
           sessionName := ⟨project⟩ ++ "_" ++ ⟨vehicle⟩ ++ "_" ++ ⟨dateRaw⟩ ++ "_" ++
             ⟨timeRaw⟩ ++ "_" ++ ⟨sw⟩ }
  else none

/-! ### The body-line parser (`parseJumpFileContent`) -/

/-- One decoded event line (source interface `JumpFileEvent`). -/
structure JumpFileEvent where
  sessionName : String
  viewName : String
  clipNumber : String
  camera : String
  frameNumber : String
  eventName : String
  fullLine : String
deriving DecidableEq, Repr

/-- The tail of the track pattern after the session-name literal:
`_s\d+_s_([^_]+)_s\d+_([^_]+)$`.  Every quantified group is a greedy run whose
character class excludes the character required next, so the decomposition at a
given start position is forced; captures are `(viewName, clipNumber)`. -/
def matchTail (r : List Char) : Option (List Char × List Char) :=
  match r with
  | '_' :: 's' :: r1 =>
    match takeRun Char.isDigit r1 with
    | (d1, '_' :: 's' :: '_' :: r3) =>
      if d1.isEmpty then none else
      match takeRun (fun c => c != '_') r3 with
      | (view, '_' :: 's' :: r5) =>
        if view.isEmpty then none else
        match takeRun Char.isDigit r5 with
        | (d2, '_' :: r7) =>
          if d2.isEmpty then none else
          match takeRun (fun c => c != '_') r7 with
          | (clip, []) => if clip.isEmpty then none else some (view, clip)
          | _ => none
        | _ => none
      | _ => none
    | _ => none
  | _ => none

/-- `trackfile.match(trackPattern)` where `trackPattern` is the escaped session
name followed by `matchTail`'s pattern, anchored by `$` only (there is no `^`
anchor in the source).  The escaping of all regex metacharacters makes the
session name a literal, and JavaScript `match` finds the leftmost start
position from which the whole pattern reaches the end of the string. -/
def matchTrack (sess : List Char) (tf : List Char) : Option (List Char × List Char) :=
  match tf with
  | [] => if startsWithL sess [] then matchTail (([] : List Char).drop sess.length) else none
  | c :: rest =>
    match (if startsWithL sess (c :: rest) then matchTail ((c :: rest).drop sess.length)
           else none) with
    | some r => some r
    | none => matchTrack sess rest

/-- The loop body of `parseJumpFileContent` for a single line: trim; skip empty
and `#`-comment lines; split on whitespace into ≥ 4 tokens; match the first
token against the track pattern; on success emit the event with the captures,
zero-padded clip number, space-joined event name and trimmed full line. -/
def processLine (sess : List Char) (line : List Char) : Option JumpFileEvent :=
  let t := jsTrim line
  match t with
  | [] => none
  | '#' :: _ => none
  | _ :: _ =>
    match splitWs t with
    | tf :: camera :: frame :: e1 :: es =>
      match matchTrack sess tf with
      | some (view, clip) =>
        some { sessionName := ⟨sess⟩, viewName := ⟨view⟩, clipNumber := ⟨padClip clip⟩,
               camera := ⟨camera⟩, frameNumber := ⟨frame⟩,
               eventName := ⟨joinSpaces (e1 :: es)⟩, fullLine := ⟨t⟩ }
      | none => none
    | _ => none

/-- `parseJumpFileContent`: split the body on `'\n'` and collect, in line
order, the events of the lines that the per-line processing retains. -/
def parseJumpFileContent (content : String) (sessionName : String) : List JumpFileEvent :=
  (splitLines content.data).filterMap (processLine sessionName.data)

/-! ### The tree scanner (`scanDirectory`) -/

/-- One scanned artifact (source interface `JumpFileData`):
metadata plus file stats, events, and the three first-seen de-duplicated
projections.  `lastModified` is modelled as a natural-number timestamp. -/
structure JumpFileData where
  fileName : String
  filePath : String
  project : String
  vehicle : String
  date : String
  time : String
  swVersion : String
  createDate : String
  datacoNumber : String
  sessionName : String
  size : Nat
  lastModified : Nat
  events : List JumpFileEvent
  eventCount : Nat
  uniqueEvents : List String
  uniqueCameras : List String
  uniqueClips : List String
deriving DecidableEq, Repr

/-- Model filesystem tree.  A `file` carries a `readable` flag: `false` means
`fs.statSync`/`fs.readFileSync` throw for it.  A `dir` likewise carries a flag:
`false` means the directory does not exist or `fs.readdirSync` throws. -/
inductive FsTree where
  | file (name : String) (readable : Bool) (size : Nat) (mtime : Nat) (content : String)
  | dir (name : String) (readable : Bool) (entries : List FsTree)
deriving Repr

/-- Assemble the `JumpFileData` record pushed by `scanDirectory` for one
successfully read artifact. -/
def mkJumpFileData (dirPath name : String) (sz mt : Nat) (content : String)
    (meta : JumpFileMetadata) : JumpFileData :=
  let events := parseJumpFileContent content meta.sessionName
  { fileName := name, filePath := dirPath ++ "/" ++ name,
    project := meta.project, vehicle := meta.vehicle, date := meta.date, time := meta.time,
    swVersion := meta.swVersion, createDate := meta.createDate,
    datacoNumber := meta.datacoNumber, sessionName := meta.sessionName,
    size := sz, lastModified := mt,
    events := events, eventCount := events.length,
    uniqueEvents := jsSetDedup (events.map (·.eventName)),
    uniqueCameras := jsSetDedup (events.map (·.camera)),
    uniqueClips := jsSetDedup (events.map (·.clipNumber)) }

/-- The per-regular-file branch of the scan loop: the `.jump` extension check,
the filename parse, the `!metadata.datacoNumber` falsiness check, the accepted
ticket-set membership check, and the guarded stat/read (whose failure, modelled
by `readable = false`, is caught and yields no record). -/
def processFile (dirPath : String) (subtasks : List String) (name : String)
    (readable : Bool) (sz mt : Nat) (content : String) : List JumpFileData :=
  if ".jump".data.isSuffixOf name.data then
    match parseFileName name with
    | none => []
    | some meta =>
      if meta.datacoNumber = "" then []
      else if subtasks.contains meta.datacoNumber then
        if readable then [mkJumpFileData dirPath name sz mt content meta] else []
      else []
  else []

mutual

/-- Scan one directory entry.  A subdirectory is scanned recursively (an
unreadable one contributes nothing: its `readdirSync` error is caught); a
regular file goes through `processFile`. -/
def scanEntry (dirPath : String) (subtasks : List String) : FsTree → List JumpFileData
  | .dir name true entries => scanEntries (dirPath ++ "/" ++ name) subtasks entries
  | .dir _ false _ => []
  | .file name readable sz mt content => processFile dirPath subtasks name readable sz mt content

/-- Scan a directory's entry list in order, concatenating the results. -/
def scanEntries (dirPath : String) (subtasks : List String) : List FsTree → List JumpFileData
  | [] => []
  | e :: es => scanEntry dirPath subtasks e ++ scanEntries dirPath subtasks es

end

/-- `scanDirectory(dirPath, subtasks)` applied to the tree rooted at `dirPath`:
a missing or unreadable root yields `[]` (the `existsSync` guard resp. the
caught `readdirSync` error), as does a root that is not a directory. -/
def scanDirectory (dirPath : String) (subtasks : List String) : FsTree → List JumpFileData
  | .dir _ true entries => scanEntries dirPath subtasks entries
  | .dir _ false _ => []
  | .file _ _ _ _ _ => []

/-! ### The filter/sort engine of `page.tsx` (`filteredFiles`) -/

/-- The `sortBy` union type of the filter state. -/
inductive SortKey where
  | byFileName | byDate | byProject | byVehicle | byEventCount
deriving DecidableEq, Repr

/-- The `sortOrder` union type of the filter state. -/
inductive SortOrder where
  | asc | desc
deriving DecidableEq, Repr

/-- The filter state of `page.tsx` (the fields `filteredFiles` reads). -/
structure Filters where
  selectedSubtasks : List String
  selectedEventTypes : List String
  selectedCameraTypes : List String
  selectedProjects : List String
  selectedVehicles : List String
  sortBy : SortKey
  sortOrder : SortOrder
deriving DecidableEq, Repr

/-- Model of `a.localeCompare(b)`: negative, zero or positive according to the
string order (locale-dependent collation is modelled as code-point order). -/
def strCmp (a b : String) : Int :=
  if a < b then -1 else if b < a then 1 else 0

/-- The `switch (filters.sortBy)` comparator body. -/
def baseCompare (k : SortKey) (a b : JumpFileData) : Int :=
  match k with
  | .byFileName => strCmp a.fileName b.fileName
  | .byDate => strCmp a.date b.date
  | .byProject => strCmp a.project b.project
  | .byVehicle => strCmp a.vehicle b.vehicle
  | .byEventCount => (a.eventCount : Int) - (b.eventCount : Int)

/-- The full comparator: `sortOrder === 'asc' ? comparison : -comparison`. -/
def fileCompare (f : Filters) (a b : JumpFileData) : Int :=
  match f.sortOrder with
  | .asc => baseCompare f.sortBy a b
  | .desc => -(baseCompare f.sortBy a b)

/-- The "at most" relation induced by the comparator, used for sorting. -/
def cmpLE (f : Filters) (a b : JumpFileData) : Prop :=
  fileCompare f a b ≤ 0

instance (f : Filters) : DecidableRel (cmpLE f) :=
  fun a b => decidable_of_iff (fileCompare f a b ≤ 0) Iff.rfl

/-- The filter predicate of `filteredFiles`: each of the five constraint lists
rejects a record only when the list is nonempty and misses the corresponding
field (for event and camera types, misses every element of the record's
unique-set), in the source's check order. -/
def passesFilters (f : Filters) (file : JumpFileData) : Bool :=
  if f.selectedSubtasks.length > 0 &&
      !(f.selectedSubtasks.contains ("DATACO-" ++ file.datacoNumber)) then false
  else if f.selectedProjects.length > 0 &&
      !(f.selectedProjects.contains file.project) then false
  else if f.selectedVehicles.length > 0 &&
      !(f.selectedVehicles.contains file.vehicle) then false
  else if f.selectedEventTypes.length > 0 &&
      !(file.uniqueEvents.any (fun e => f.selectedEventTypes.contains e)) then false
  else if f.selectedCameraTypes.length > 0 &&
      !(file.uniqueCameras.any (fun c => f.selectedCameraTypes.contains c)) then false
  else true

/-- `filteredFiles`: filter, then sort the fresh filtered array with the
comparator.  JavaScript `Array.sort` is stable, as is `List.insertionSort`,
and a stable sort with respect to a total preorder has a unique result, so
`insertionSort` is a faithful model. -/
def filteredFiles (f : Filters) (files : List JumpFileData) : List JumpFileData :=
  List.insertionSort (cmpLE f) (files.filter (passesFilters f))

/-- State-passing embedding of the `filteredFiles` memo: the first component
is the value held by the input array `fileData.files` after the computation
(`.filter` allocates a fresh array and the in-place `.sort` is applied to that
fresh array, so no operation writes the input), the second is the returned
projection. -/
def filteredFilesSt (f : Filters) (files : List JumpFileData) :
    List JumpFileData × List JumpFileData :=
  (files, filteredFiles f files)

/-! ### The summary statistics of the `GET` handler -/

/-- Sort a list of strings ascending, as `Array.sort()` with no comparator
does for ASCII data. -/
def sortStrings (l : List String) : List String :=
  List.insertionSort (fun a b : String => a ≤ b) l

/-- The `summary` object of the response (plus `totalFiles`, which the
response carries alongside it as `files.length`). -/
structure ScanSummary where
  totalFiles : Nat
  totalEvents : Nat
  uniqueEventTypes : List String
  uniqueCameraTypes : List String
  uniqueProjects : List String
  uniqueVehicles : List String
  earliest : String
  latest : String
deriving DecidableEq, Repr

/-- The non-empty formatted date strings of the scanned records
(`files.map(f => f.date).filter(d => d)`). -/
def collectDates (files : List JumpFileData) : List String :=
  (files.map (·.date)).filter (fun d => !d.isEmpty)

/-- `dates.sort()` of the `GET` handler. -/
def sortedDatesOf (files : List JumpFileData) : List String :=
  sortStrings (collectDates files)

/-- The summary-statistics block of the `GET` handler: unique sets flattened,
first-seen de-duplicated and sorted; the date range as first/last of the
lexicographically sorted non-empty date strings, defaulting to `''`. -/
def summaryOf (files : List JumpFileData) : ScanSummary :=
  let allEvents := files.flatMap (·.events)
  { totalFiles := files.length
    totalEvents := allEvents.length
    uniqueEventTypes := sortStrings (jsSetDedup (allEvents.map (·.eventName)))
    uniqueCameraTypes := sortStrings (jsSetDedup (allEvents.map (·.camera)))
    uniqueProjects := sortStrings (jsSetDedup (files.map (·.project)))
    uniqueVehicles := sortStrings (jsSetDedup (files.map (·.vehicle)))
    earliest := (sortedDatesOf files).head?.getD ""
    latest := (sortedDatesOf files).getLast?.getD "" }

/-! ### Subtask-key normalization of the `GET` handler -/

/-- Accumulator-based splitting on `','`, keeping empty pieces:
the behaviour of `String.prototype.split(',')`. -/
def splitCommasAux (acc : List Char) : List Char → List (List Char)
  | [] => [acc.reverse]
  | c :: rest =>
    if c = ',' then acc.reverse :: splitCommasAux [] rest
    else splitCommasAux (c :: acc) rest

/-- `subtasksParam.split(',').map(s => s.replace('DATACO-', ''))`: split on
commas and remove the first occurrence of the literal `DATACO-` from each
entry. -/
def normalizeSubtasks (subtasksParam : String) : List String :=
  (splitCommasAux [] subtasksParam.data).map
    (fun s => (⟨replaceFirst s "DATACO-".data⟩ : String))

/-! ### The filename grammar, stated from the specification -/

/-- The artifact filename grammar
`<project>_<vehicle>_<DDMMYY>_<HHMMSS>_<swVersion:digits>_<DDMMYY>_DATACO-<digits>.jump`
as a proposition: the filename decomposes into the seven tokens with their
shape constraints (`project`/`vehicle` nonempty and underscore-free, the three
date/time tokens exactly six digits, the version and ticket tokens nonempty
digit runs). -/
def MatchesGrammar (name : String) : Prop :=
  ∃ project vehicle dd tt sw cd dn : List Char,
    name.data = project ++ '_' :: (vehicle ++ '_' :: (dd ++ '_' :: (tt ++ '_' ::
      (sw ++ '_' :: (cd ++ '_' :: ("DATACO-".data ++ dn ++ ".jump".data)))))) ∧
    project ≠ [] ∧ '_' ∉ project ∧ vehicle ≠ [] ∧ '_' ∉ vehicle ∧
    dd.length = 6 ∧ (∀ c ∈ dd, c.isDigit) ∧
    tt.length = 6 ∧ (∀ c ∈ tt, c.isDigit) ∧
    sw ≠ [] ∧ (∀ c ∈ sw, c.isDigit) ∧
    cd.length = 6 ∧ (∀ c ∈ cd, c.isDigit) ∧
    dn ≠ [] ∧ (∀ c ∈ dn, c.isDigit)

/-! ### Helper lemmas -/

theorem takeRun_parts {q : Char → Bool} {cs d r : List Char}
    (h : takeRun q cs = (d, r)) :
    cs = d ++ r ∧ (∀ x ∈ d, q x = true) := by
  have h1 : cs.takeWhile q = d := congrArg Prod.fst h
  have h2 : cs.dropWhile q = r := congrArg Prod.snd h
  refine ⟨?_, ?_⟩
  · rw [← h1, ← h2]
    exact (List.takeWhile_append_dropWhile q cs).symm
  · intro x hx
    rw [← h1] at hx
    exact List.mem_takeWhile_imp hx

theorem takeRun_append {q : Char → Bool} (a b : List Char)
    (ha : ∀ x ∈ a, q x = true)
    (hb : ∀ h t, b = h :: t → q h = false) :
    takeRun q (a ++ b) = (a, b) := by
  induction a with
  | nil =>
    cases b with
    | nil => rfl
    | cons h t =>
      simp only [takeRun, List.nil_append, List.takeWhile_cons, List.dropWhile_cons,
        hb h t rfl]
      simp
  | cons c a' ih =>
    have hc : q c = true := ha c (List.mem_cons_self c a')
    have ih' := ih (fun x hx => ha x (List.mem_cons_of_mem c hx))
    have i1 : (a' ++ b).takeWhile q = a' := congrArg Prod.fst ih'
    have i2 : (a' ++ b).dropWhile q = b := congrArg Prod.snd ih'
    simp only [takeRun, List.cons_append, List.takeWhile_cons, List.dropWhile_cons, hc,
      if_true, i1, i2]

theorem startsWithL_eq_append {p cs : List Char} (h : startsWithL p cs = true) :
    cs = p ++ cs.drop p.length := by
  induction p generalizing cs with
  | nil => simp
  | cons a ps ih =>
    cases cs with
    | nil => simp [startsWithL] at h
    | cons c cs' =>
      simp only [startsWithL, Bool.and_eq_true, beq_iff_eq] at h
      obtain ⟨h1, h2⟩ := h
      simp only [List.length_cons, List.drop_succ_cons, List.cons_append, h1]
      exact congrArg (c :: ·) (ih h2)

theorem startsWithL_append (p r : List Char) : startsWithL p (p ++ r) = true := by
  induction p with
  | nil => rfl
  | cons a ps ih => simp [startsWithL, ih]

theorem scanEntries_append (dirPath : String) (subtasks : List String)
    (a b : List FsTree) :
    scanEntries dirPath subtasks (a ++ b) =
      scanEntries dirPath subtasks a ++ scanEntries dirPath subtasks b := by
  induction a with
  | nil => simp [scanEntries]
  | cons e es ih => simp [scanEntries, ih]

theorem processFile_unreadable (dirPath : String) (subtasks : List String)
    (name : String) (sz mt : Nat) (content : String) :
    processFile dirPath subtasks name false sz mt content = [] := by
  unfold processFile
  split
  · cases h : parseFileName name with
    | none => rfl
    | some meta => simp
  · rfl

theorem strCmp_neg (a b : String) : strCmp b a = -strCmp a b := by
  unfold strCmp
  by_cases h1 : a < b
  · have h2 : ¬ b < a := asymm h1
    simp [h1, h2]
  · by_cases h2 : b < a
    · simp [h1, h2]
    · simp [h1, h2]

theorem strCmp_nonpos {a b : String} : strCmp a b ≤ 0 ↔ a ≤ b := by
  unfold strCmp
  by_cases h1 : a < b
  · simp [h1, h1.le]
  · by_cases h2 : b < a
    · have h3 : ¬ a ≤ b := not_le.mpr h2
      simp [h1, h2, h3]
    · simp [h1, h2, le_of_not_lt h2]

theorem baseCompare_neg (k : SortKey) (a b : JumpFileData) :
    baseCompare k b a = -(baseCompare k a b) := by
  cases k
  case byFileName => exact strCmp_neg _ _
  case byDate => exact strCmp_neg _ _
  case byProject => exact strCmp_neg _ _
  case byVehicle => exact strCmp_neg _ _
  case byEventCount => simp only [baseCompare]; omega

theorem baseCompare_trans {k : SortKey} {a b c : JumpFileData}
    (h1 : baseCompare k a b ≤ 0) (h2 : baseCompare k b c ≤ 0) :
    baseCompare k a c ≤ 0 := by
  cases k <;> simp only [baseCompare] at h1 h2 ⊢
  case byFileName =>
    exact strCmp_nonpos.mpr (le_trans (strCmp_nonpos.mp h1) (strCmp_nonpos.mp h2))
  case byDate =>
    exact strCmp_nonpos.mpr (le_trans (strCmp_nonpos.mp h1) (strCmp_nonpos.mp h2))
  case byProject =>
    exact strCmp_nonpos.mpr (le_trans (strCmp_nonpos.mp h1) (strCmp_nonpos.mp h2))
  case byVehicle =>
    exact strCmp_nonpos.mpr (le_trans (strCmp_nonpos.mp h1) (strCmp_nonpos.mp h2))
  case byEventCount => omega

theorem cmpLE_total (f : Filters) : ∀ a b, cmpLE f a b ∨ cmpLE f b a := by
  obtain ⟨s1, s2, s3, s4, s5, k, o⟩ := f
  intro a b
  cases o <;> simp only [cmpLE, fileCompare] <;>
    rw [baseCompare_neg k a b] <;> omega

theorem cmpLE_trans (f : Filters) :
    ∀ a b c, cmpLE f a b → cmpLE f b c → cmpLE f a c := by
  obtain ⟨s1, s2, s3, s4, s5, k, o⟩ := f
  intro a b c h1 h2
  cases o <;> simp only [cmpLE, fileCompare] at h1 h2 ⊢
  · exact baseCompare_trans h1 h2
  · have g1 : baseCompare k b a ≤ 0 := by
      rw [baseCompare_neg]; omega
    have g2 : baseCompare k c b ≤ 0 := by
      rw [baseCompare_neg]; omega
    have g3 := baseCompare_trans g2 g1
    rw [baseCompare_neg] at g3
    omega

instance (f : Filters) : IsTotal JumpFileData (cmpLE f) := ⟨cmpLE_total f⟩

instance (f : Filters) : IsTrans JumpFileData (cmpLE f) := ⟨cmpLE_trans f⟩

theorem scanEntries_cons (dirPath : String) (subtasks : List String)
    (e : FsTree) (es : List FsTree) :
    scanEntries dirPath subtasks (e :: es) =
      scanEntry dirPath subtasks e ++ scanEntries dirPath subtasks es := by
  simp [scanEntries]

theorem scanEntry_unreadable_file (dirPath : String) (subtasks : List String)
    (name : String) (sz mt : Nat) (content : String) :
    scanEntry dirPath subtasks (.file name false sz mt content) = [] := by
  simp only [scanEntry]
  exact processFile_unreadable dirPath subtasks name sz mt content

/-! ### The claims -/

/-- **C4** — Scan failure policy: a missing or unreadable root directory (and a
root that is not a directory at all, for which `readdirSync` throws) yields the
empty record list rather than an exception, and a single file whose
stat/read fails (`readable = false`) is omitted while the records produced for
all the other entries are exactly unchanged: no single file's failure aborts
the scan. -/
theorem c4_failure_policy :
    (∀ (dirPath : String) (subtasks : List String) (name : String) (entries : List FsTree),
        scanDirectory dirPath subtasks (.dir name false entries) = []) ∧
    (∀ (dirPath : String) (subtasks : List String) (name : String) (readable : Bool)
        (sz mt : Nat) (content : String),
        scanDirectory dirPath subtasks (.file name readable sz mt content) = []) ∧
    (∀ (dirPath : String) (subtasks : List String) (pre post : List FsTree)
        (name : String) (sz mt : Nat) (content : String),
        scanEntries dirPath subtasks (pre ++ FsTree.file name false sz mt content :: post) =
          scanEntries dirPath subtasks (pre ++ post)) := by
  refine ⟨fun _ _ _ _ => rfl, fun _ _ _ _ _ _ _ => rfl, ?_⟩
  intro dirPath subtasks pre post name sz mt content
  rw [scanEntries_append, scanEntries_append, scanEntries_cons,
    scanEntry_unreadable_file]
  simp

/-- **C9** — The filter/sort engine does not mutate its input: in the
state-passing embedding `filteredFilesSt`, the post-state of the input array is
its pre-state (the source filters into a fresh array and sorts that fresh
array in place), and the returned projection is a permutation of the filtered
copy of the input. -/
theorem c9_engine_preserves_input (f : Filters) (files : List JumpFileData) :
    (filteredFilesSt f files).1 = files ∧
    ((filteredFilesSt f files).2).Perm (files.filter (passesFilters f)) ∧
    List.Sorted (cmpLE f) ((filteredFilesSt f files).2) :=
  ⟨rfl, List.perm_insertionSort _ _, List.sorted_insertionSort _ _⟩

/-- **C6** — Filtering with all five constraint sets empty returns every input
record: the output is a permutation of the input (the same multiset), ordered
by the active sort specification's comparator. -/
theorem c6_empty_filter_returns_all (f : Filters) (files : List JumpFileData)
    (h1 : f.selectedSubtasks = []) (h2 : f.selectedEventTypes = [])
    (h3 : f.selectedCameraTypes = []) (h4 : f.selectedProjects = [])
    (h5 : f.selectedVehicles = []) :
    (filteredFiles f files).Perm files ∧
      List.Sorted (cmpLE f) (filteredFiles f files) := by
  have hpass : ∀ file ∈ files, passesFilters f file = true := by
    intro file _
    simp [passesFilters, h1, h2, h3, h4, h5]
  have hfilter : files.filter (passesFilters f) = files :=
    List.filter_eq_self.mpr hpass
  constructor
  · show (List.insertionSort (cmpLE f) (files.filter (passesFilters f))).Perm files
    rw [hfilter]
    exact List.perm_insertionSort _ _
  · exact List.sorted_insertionSort (cmpLE f) _

/-- A filter state with every constraint set empty (used as the concrete
input of `c6_empty_filter_returns_all`'s witness). -/
def emptyFilters : Filters :=
  ⟨[], [], [], [], [], .byFileName, .asc⟩

/-- Witness for **C6** at a concrete input. -/
theorem c6_empty_filter_returns_all_witness :
    (filteredFiles emptyFilters []).Perm [] ∧
      List.Sorted (cmpLE emptyFilters) (filteredFiles emptyFilters []) :=
  c6_empty_filter_returns_all emptyFilters [] rfl rfl rfl rfl rfl

/-- **C7** — The Summary's date range: there is a list `ds` that is a
lexicographically sorted permutation of the non-empty formatted date strings
of the scanned records, and `earliest`/`latest` are its first/last element
(empty string when there is none); with zero records every field of the
Summary is empty and `totalFiles = 0`. -/
theorem c7_summary_date_range :
    (∀ files : List JumpFileData, ∃ ds : List String,
        ds.Perm ((files.map (·.date)).filter (fun d => !d.isEmpty)) ∧
        List.Sorted (fun a b : String => a ≤ b) ds ∧
        (summaryOf files).earliest = ds.head?.getD "" ∧
        (summaryOf files).latest = ds.getLast?.getD "") ∧
    summaryOf [] =
      { totalFiles := 0
        totalEvents := 0
        uniqueEventTypes := []
        uniqueCameraTypes := []
        uniqueProjects := []
        uniqueVehicles := []
        earliest := ""
        latest := "" } := by
  constructor
  · intro files
    exact ⟨sortedDatesOf files, List.perm_insertionSort _ _,
      List.sorted_insertionSort _ _, rfl, rfl⟩
  · rfl

/-- The end-to-end scenario of the claim: the tree holding exactly the file
`PRJ_VEH_010124_120000_5_020124_DATACO-42.jump` whose body is the single line
the specification gives, in which the track token embeds the createDate token
`020124` between the session name and `_s1_...`. -/
def tree42spec : FsTree :=
  .dir "Voice_Tagging" true
    [ .file "PRJ_VEH_010124_120000_5_020124_DATACO-42.jump" true 10 20
        "PRJ_VEH_010124_120000_5_020124_s1_s_Front_s60_7 CamA 100 Honk" ]

/-- The same scenario with the body's track token equal to the session name
`PRJ_VEH_010124_120000_5` directly followed by `_s1_s_Front_s60_7` (no stray
createDate token), which is the shape the track pattern accepts. -/
def tree42session : FsTree :=
  .dir "Voice_Tagging" true
    [ .file "PRJ_VEH_010124_120000_5_020124_DATACO-42.jump" true 10 20
        "PRJ_VEH_010124_120000_5_s1_s_Front_s60_7 CamA 100 Honk" ]

/-- **C1 counterexample** — On the scenario exactly as the claim states it,
the scan produces one ArtifactRecord with the claimed project, vehicle and
ticket number, but with `eventCount = 0` and no EventRecord at all (so not
`eventCount = 1` with a clip-`"0007"` event): the body's track token
`PRJ_VEH_010124_120000_5_020124_s1_s_Front_s60_7` puts the createDate token
`020124` right after the session name, where the track pattern requires
`_s<digits>`, so the line is dropped. -/
theorem c1_counterexample :
    (scanDirectory "/mobileye/DC/Voice_Tagging" ["42"] tree42spec).map
        (fun r => (r.project, r.vehicle, r.datacoNumber, r.eventCount)) =
      [("PRJ", "VEH", "42", 0)] ∧
    (scanDirectory "/mobileye/DC/Voice_Tagging" ["42"] tree42spec).flatMap
        (fun r => r.events) = [] ∧
    (scanDirectory "/mobileye/DC/Voice_Tagging" ["42"] tree42spec).map
        (fun r => r.eventCount) ≠ [1] := by
  decide

/-- **C1 (amended)** — With the body's track token starting with the session
name itself (`PRJ_VEH_010124_120000_5_s1_s_Front_s60_7`, no embedded
createDate token), scanning the tree containing exactly
`PRJ_VEH_010124_120000_5_020124_DATACO-42.jump` with accepted ticket set
`{"42"}` produces exactly one ArtifactRecord with project `"PRJ"`, vehicle
`"VEH"`, ticket number `"42"` and `eventCount = 1`, containing exactly one
EventRecord with clip number `"0007"`, camera `"CamA"` and event name
`"Honk"`. -/
theorem c1_end_to_end :
    (scanDirectory "/mobileye/DC/Voice_Tagging" ["42"] tree42session).map
        (fun r => (r.project, r.vehicle, r.datacoNumber, r.eventCount)) =
      [("PRJ", "VEH", "42", 1)] ∧
    ((scanDirectory "/mobileye/DC/Voice_Tagging" ["42"] tree42session).flatMap
        (fun r => r.events)).map (fun e => (e.clipNumber, e.camera, e.eventName)) =
      [("0007", "CamA", "Honk")] := by
  decide

/-- A single artifact file whose ticket token is `42` (used by the C10
theorem to exercise the membership test of the scanner). -/
def fileDataco42 : FsTree :=
  .file "PRJ_VEH_010124_120000_5_020124_DATACO-42.jump" true 10 20 "x"

/-- **C10** — Ticket-key normalization and matching are exact string
operations: each comma-separated entry has only its first occurrence of the
case-sensitive literal `DATACO-` removed, wherever it occurs (a non-prefix
occurrence is removed, a second occurrence is kept, `dataco-42` is left
unchanged); a `.jump` file is included exactly when its filename's DATACO
digit token is string-equal to one normalized entry, so entries differing
only in leading zeros (`042` vs `42`) never match. -/
theorem c10_ticket_normalization :
    normalizeSubtasks "abcDATACO-42x,DATACO-DATACO-7,dataco-42,DATACO-042" =
      ["abc42x", "DATACO-7", "dataco-42", "042"] ∧
    (∀ subtasks : List String,
      scanEntry "/p" subtasks fileDataco42 ≠ [] ↔ subtasks.contains "42" = true) ∧
    scanEntry "/p" (normalizeSubtasks "DATACO-042") fileDataco42 = [] := by
  refine ⟨by decide, ?_, by decide⟩
  intro subtasks
  have hsuffix : (".jump".data.isSuffixOf
      "PRJ_VEH_010124_120000_5_020124_DATACO-42.jump".data) = true := by decide
  have hparse : parseFileName "PRJ_VEH_010124_120000_5_020124_DATACO-42.jump" =
      some { project := "PRJ", vehicle := "VEH", date := "01/01/2024",
             time := "12:00:00", swVersion := "5", createDate := "02/01/2024",
             datacoNumber := "42", sessionName := "PRJ_VEH_010124_120000_5" } := by
    decide
  simp only [fileDataco42, scanEntry, processFile, hsuffix, if_true, hparse]
  have hne : ("42" : String) ≠ "" := by decide
  simp only [hne, if_false]
  by_cases hc : subtasks.contains "42" = true
  · simp [hc]
  · simp [hc]

/-- **C2 counterexample** — With session name `"S"`, the line
`XS_s1_s_Front_s60_7 CamA 100 Honk` has as its leading whitespace-token
`XS_s1_s_Front_s60_7`, which is *not* of the whole-token shape
`S_s<digits>_s_<view>_s<digits>_<clip>` (it does not even start with the
session name, as the second conjunct records), yet the parser emits an
EventRecord for it: the track pattern carries only a `$` anchor, so the
shape is found as a proper suffix of the token.  The claim's assertion that
such a line is dropped is therefore false. -/
theorem c2_counterexample :
    (processLine "S".data "XS_s1_s_Front_s60_7 CamA 100 Honk".data).isSome = true ∧
    startsWithL "S".data "XS_s1_s_Front_s60_7".data = false ∧
    splitWs (jsTrim "XS_s1_s_Front_s60_7 CamA 100 Honk".data) =
      ["XS_s1_s_Front_s60_7".data, "CamA".data, "100".data, "Honk".data] := by
  decide

theorem processLine_inv {sess line : List Char} {ev : JumpFileEvent}
    (h : processLine sess line = some ev) :
    ∃ tf camera frame e1 es view clip,
      splitWs (jsTrim line) = tf :: camera :: frame :: e1 :: es ∧
      matchTrack sess tf = some (view, clip) ∧
      ev = { sessionName := ⟨sess⟩, viewName := ⟨view⟩, clipNumber := ⟨padClip clip⟩,
             camera := ⟨camera⟩, frameNumber := ⟨frame⟩,
             eventName := ⟨joinSpaces (e1 :: es)⟩, fullLine := ⟨jsTrim line⟩ } := by
  simp only [processLine] at h
  split at h
  · exact absurd h (by simp)
  · exact absurd h (by simp)
  · split at h
    · split at h
      · rename_i x1 tf camera frame e1 es heqSplit x2 view clip heqMatch
        exact ⟨tf, camera, frame, e1, es, view, clip, heqSplit, heqMatch,
          (Option.some.inj h).symm⟩
      · exact absurd h (by simp)
    · exact absurd h (by simp)

theorem padClip_short {clip : List Char} (h : clip.length < 4) :
    padClip clip = List.replicate (4 - clip.length) '0' ++ clip ∧
      (padClip clip).length = 4 := by
  unfold padClip
  rw [if_neg (by omega)]
  refine ⟨rfl, ?_⟩
  simp only [List.length_append, List.length_replicate]
  omega

theorem padClip_long {clip : List Char} (h : 4 ≤ clip.length) :
    padClip clip = clip :=
  if_pos h

/-- **C8** — For every emitted event, the clip number is the captured token of
the track-pattern match rendered through `padStart(4, '0')`: when the captured
token is shorter than 4 characters the emitted `clipNumber` is a left-zero-
padded string of exactly 4 characters, and when the captured token already has
4 or more characters it is passed through completely unchanged. -/
theorem c8_clip_padding (sess line : List Char) (ev : JumpFileEvent)
    (h : processLine sess line = some ev) :
    ∃ tf rest view clip,
      splitWs (jsTrim line) = tf :: rest ∧
      matchTrack sess tf = some (view, clip) ∧
      ev.clipNumber = ⟨padClip clip⟩ ∧
      (clip.length < 4 → ev.clipNumber.length = 4 ∧
        ev.clipNumber.data = List.replicate (4 - clip.length) '0' ++ clip) ∧
      (4 ≤ clip.length → ev.clipNumber = ⟨clip⟩) := by
  obtain ⟨tf, camera, frame, e1, es, view, clip, h1, h2, h3⟩ := processLine_inv h
  refine ⟨tf, camera :: frame :: e1 :: es, view, clip, h1, h2, ?_, ?_, ?_⟩
  · rw [h3]
  · intro hlt
    obtain ⟨hp, hl⟩ := padClip_short hlt
    constructor
    · rw [h3]
      show (padClip clip).length = 4
      exact hl
    · rw [h3]
      show padClip clip = _
      exact hp
  · intro hge
    rw [h3]
    show (⟨padClip clip⟩ : String) = (⟨clip⟩ : String)
    rw [padClip_long hge]

/-- Witness for **C8** at a concrete input: session `"S"` and the line
`S_s1_s_Front_s60_7 CamA 100 Honk`, whose captured clip token `7` is emitted
as `0007`. -/
theorem c8_clip_padding_witness :
    ∃ tf rest view clip,
      splitWs (jsTrim "S_s1_s_Front_s60_7 CamA 100 Honk".data) = tf :: rest ∧
      matchTrack "S".data tf = some (view, clip) ∧
      ({ sessionName := "S", viewName := "Front", clipNumber := "0007",
         camera := "CamA", frameNumber := "100", eventName := "Honk",
         fullLine := "S_s1_s_Front_s60_7 CamA 100 Honk" } : JumpFileEvent).clipNumber =
        ⟨padClip clip⟩ ∧
      (clip.length < 4 →
        ({ sessionName := "S", viewName := "Front", clipNumber := "0007",
           camera := "CamA", frameNumber := "100", eventName := "Honk",
           fullLine := "S_s1_s_Front_s60_7 CamA 100 Honk" } : JumpFileEvent).clipNumber.length = 4 ∧
        ({ sessionName := "S", viewName := "Front", clipNumber := "0007",
           camera := "CamA", frameNumber := "100", eventName := "Honk",
           fullLine := "S_s1_s_Front_s60_7 CamA 100 Honk" } : JumpFileEvent).clipNumber.data =
          List.replicate (4 - clip.length) '0' ++ clip) ∧
      (4 ≤ clip.length →
        ({ sessionName := "S", viewName := "Front", clipNumber := "0007",
           camera := "CamA", frameNumber := "100", eventName := "Honk",
           fullLine := "S_s1_s_Front_s60_7 CamA 100 Honk" } : JumpFileEvent).clipNumber =
          ⟨clip⟩) :=
  c8_clip_padding "S".data "S_s1_s_Front_s60_7 CamA 100 Honk".data
    { sessionName := "S", viewName := "Front", clipNumber := "0007",
      camera := "CamA", frameNumber := "100", eventName := "Honk",
      fullLine := "S_s1_s_Front_s60_7 CamA 100 Honk" }
    (by decide)

theorem isEmpty_false_ne {l : List Char} (h : ¬ l.isEmpty = true) : l ≠ [] := by
  cases l with
  | nil => simp at h
  | cons a t => simp

theorem ne_underscore_notMem {l : List Char}
    (h : ∀ x ∈ l, (x != '_') = true) : '_' ∉ l := by
  intro hm
  have hx := h _ hm
  simp at hx

theorem matchTail_sound {r v c : List Char} (h : matchTail r = some (v, c)) :
    ∃ d1 d2,
      r = '_' :: 's' :: (d1 ++ '_' :: 's' :: '_' :: (v ++ '_' :: 's' :: (d2 ++ '_' :: c))) ∧
      d1 ≠ [] ∧ (∀ x ∈ d1, x.isDigit = true) ∧
      v ≠ [] ∧ '_' ∉ v ∧
      d2 ≠ [] ∧ (∀ x ∈ d2, x.isDigit = true) ∧
      c ≠ [] ∧ '_' ∉ c := by
  unfold matchTail at h
  split at h
  case h_2 => exact absurd h (by simp)
  split at h
  case h_2 => exact absurd h (by simp)
  split at h
  case isTrue => exact absurd h (by simp)
  split at h
  case h_2 => exact absurd h (by simp)
  split at h
  case isTrue => exact absurd h (by simp)
  split at h
  case h_2 => exact absurd h (by simp)
  split at h
  case isTrue => exact absurd h (by simp)
  split at h
  case h_2 => exact absurd h (by simp)
  split at h
  case isTrue => exact absurd h (by simp)
  rename_i r1 x1 d1 r3 heq1 hc1 x2 view r5 heq2 hc2 x3 d2 r7 heq3 hc3 x4 clip heq4 hc4
  have hp := Option.some.inj h
  have hview : view = v := congrArg Prod.fst hp
  have hclip : clip = c := congrArg Prod.snd hp
  subst hview hclip
  obtain ⟨e1, a1⟩ := takeRun_parts heq1
  obtain ⟨e2, a2⟩ := takeRun_parts heq2
  obtain ⟨e3, a3⟩ := takeRun_parts heq3
  obtain ⟨e4, a4⟩ := takeRun_parts heq4
  rw [List.append_nil] at e4
  refine ⟨d1, d2, ?_, isEmpty_false_ne hc1, a1, isEmpty_false_ne hc2,
    ne_underscore_notMem a2, isEmpty_false_ne hc3, a3, isEmpty_false_ne hc4,
    ne_underscore_notMem a4⟩
  rw [e1, e2, e3, e4]

theorem matchTrack_sound {sess tf v c : List Char}
    (h : matchTrack sess tf = some (v, c)) :
    ∃ pre tail, tf = pre ++ sess ++ tail ∧ matchTail tail = some (v, c) := by
  induction tf with
  | nil =>
    unfold matchTrack at h
    split at h
    · rw [List.drop_nil] at h
      exact absurd h (by simp [matchTail])
    · exact absurd h (by simp)
  | cons hd rest ih =>
    unfold matchTrack at h
    by_cases hsw : startsWithL sess (hd :: rest) = true
    · rw [if_pos hsw] at h
      cases hmt : matchTail ((hd :: rest).drop sess.length) with
      | some res =>
        rw [hmt] at h
        simp only [Option.some.injEq] at h
        refine ⟨[], (hd :: rest).drop sess.length, ?_, ?_⟩
        · simpa using startsWithL_eq_append hsw
        · rw [hmt, h]
      | none =>
        rw [hmt] at h
        simp only [] at h
        obtain ⟨pre, tail, he, hm⟩ := ih h
        exact ⟨hd :: pre, tail, by simp [he], hm⟩
    · rw [if_neg hsw] at h
      simp only [] at h
      obtain ⟨pre, tail, he, hm⟩ := ih h
      exact ⟨hd :: pre, tail, by simp [he], hm⟩

/-- **C2 (amended)** — The content parser emits an EventRecord for a line only
if, after trimming and whitespace-splitting into at least 4 tokens, the
leading token has the shape
`<anything> ++ sessionName ++ _s<digits>_s_<view>_s<digits>_<clip>` — that is,
the pattern `sessionName_s<digits>_s_<view>_s<digits>_<clip>` anchored at the
*end* of the token only: a token in which this shape occurs as a proper
suffix, preceded by extra characters, is also matched (the source's track
regular expression has a `$` anchor but no `^` anchor).  Any line whose
leading token has no such suffix is dropped silently, not reported as an
error. -/
theorem c2_track_match_suffix (sess line : List Char) (ev : JumpFileEvent)
    (h : processLine sess line = some ev) :
    ∃ tf rest, splitWs (jsTrim line) = tf :: rest ∧ 3 ≤ rest.length ∧
      ∃ pre d1 view d2 clip,
        tf = pre ++ sess ++ '_' :: 's' :: (d1 ++ '_' :: 's' :: '_' ::
          (view ++ '_' :: 's' :: (d2 ++ '_' :: clip))) ∧
        d1 ≠ [] ∧ (∀ x ∈ d1, x.isDigit = true) ∧
        view ≠ [] ∧ '_' ∉ view ∧
        d2 ≠ [] ∧ (∀ x ∈ d2, x.isDigit = true) ∧
        clip ≠ [] ∧ '_' ∉ clip ∧
        ev.viewName = ⟨view⟩ ∧ ev.clipNumber = ⟨padClip clip⟩ := by
  obtain ⟨tf, camera, frame, e1, es, view, clip, h1, h2, h3⟩ := processLine_inv h
  obtain ⟨pre, tail, he, hm⟩ := matchTrack_sound h2
  obtain ⟨d1, d2, hshape, hd1, hd1d, hv, hvnu, hd2, hd2d, hc, hcnu⟩ :=
    matchTail_sound hm
  refine ⟨tf, camera :: frame :: e1 :: es, h1, by simp, pre, d1, view, d2, clip,
    ?_, hd1, hd1d, hv, hvnu, hd2, hd2d, hc, hcnu, ?_, ?_⟩
  · rw [he, hshape]
  · rw [h3]
  · rw [h3]

/-- Witness for **C2 (amended)** at the concrete input of the counterexample:
session `"S"` and the line `XS_s1_s_Front_s60_7 CamA 100 Honk`. -/
theorem c2_track_match_suffix_witness :
    ∃ tf rest,
      splitWs (jsTrim "XS_s1_s_Front_s60_7 CamA 100 Honk".data) = tf :: rest ∧
      3 ≤ rest.length ∧
      ∃ pre d1 view d2 clip,
        tf = pre ++ "S".data ++ '_' :: 's' :: (d1 ++ '_' :: 's' :: '_' ::
          (view ++ '_' :: 's' :: (d2 ++ '_' :: clip))) ∧
        d1 ≠ [] ∧ (∀ x ∈ d1, x.isDigit = true) ∧
        view ≠ [] ∧ '_' ∉ view ∧
        d2 ≠ [] ∧ (∀ x ∈ d2, x.isDigit = true) ∧
        clip ≠ [] ∧ '_' ∉ clip ∧
        ({ sessionName := "S", viewName := "Front", clipNumber := "0007",
           camera := "CamA", frameNumber := "100", eventName := "Honk",
           fullLine := "XS_s1_s_Front_s60_7 CamA 100 Honk" } : JumpFileEvent).viewName =
          ⟨view⟩ ∧
        ({ sessionName := "S", viewName := "Front", clipNumber := "0007",
           camera := "CamA", frameNumber := "100", eventName := "Honk",
           fullLine := "XS_s1_s_Front_s60_7 CamA 100 Honk" } : JumpFileEvent).clipNumber =
          ⟨padClip clip⟩ :=
  c2_track_match_suffix "S".data "XS_s1_s_Front_s60_7 CamA 100 Honk".data
    { sessionName := "S", viewName := "Front", clipNumber := "0007",
      camera := "CamA", frameNumber := "100", eventName := "Honk",
      fullLine := "XS_s1_s_Front_s60_7 CamA 100 Honk" }
    (by decide)

theorem head_cons_eq {q : Char → Bool} {c0 : Char} {r : List Char}
    (hq : q c0 = false) :
    ∀ h t, (c0 :: r) = h :: t → q h = false := by
  intro h t ht
  injection ht with h1 h2
  rw [← h1]
  exact hq

theorem ne_nil_isEmpty_false {l : List Char} (h : l ≠ []) : l.isEmpty = false := by
  cases l with
  | nil => exact absurd rfl h
  | cons a t => rfl

theorem splitField_append (p r : List Char) (hne : p ≠ []) (hnu : '_' ∉ p) :
    splitField (p ++ '_' :: r) = some (p, r) := by
  have hall : ∀ x ∈ p, (x != '_') = true := by
    intro x hx
    simp only [bne_iff_ne, ne_eq]
    intro he
    exact hnu (he ▸ hx)
  unfold splitField
  rw [takeRun_append p ('_' :: r) hall (head_cons_eq (by decide))]
  simp [ne_nil_isEmpty_false hne]

theorem takeSix_append (d r : List Char) (h6 : d.length = 6)
    (hd : ∀ x ∈ d, x.isDigit = true) :
    takeSix (d ++ '_' :: r) = some (d, r) := by
  have htake : (d ++ '_' :: r).take 6 = d := by
    rw [← h6]
    exact List.take_left d _
  have hdrop : (d ++ '_' :: r).drop 6 = '_' :: r := by
    rw [← h6]
    exact List.drop_left d _
  simp only [takeSix]
  rw [htake, hdrop]
  simp [h6, List.all_eq_true.mpr hd]

theorem takeDigitsU_append (d r : List Char) (hne : d ≠ [])
    (hd : ∀ x ∈ d, x.isDigit = true) :
    takeDigitsU (d ++ '_' :: r) = some (d, r) := by
  unfold takeDigitsU
  rw [takeRun_append d ('_' :: r) hd (head_cons_eq (by decide))]
  simp [ne_nil_isEmpty_false hne]

theorem stripLit_append (lit r : List Char) :
    stripLit lit (lit ++ r) = some r := by
  unfold stripLit
  simp [startsWithL_append, List.drop_left]

theorem takeDigitsEnd_append (d r : List Char) (hne : d ≠ [])
    (hd : ∀ x ∈ d, x.isDigit = true)
    (hr : ∀ h t, r = h :: t → h.isDigit = false) :
    takeDigitsEnd (d ++ r) = some (d, r) := by
  simp only [takeDigitsEnd]
  rw [takeRun_append d r hd hr]
  simp [ne_nil_isEmpty_false hne]

/-- **C3** — For every filename matching the artifact grammar (given here by
its decomposition into the seven tokens), the parser succeeds and returns
metadata whose `sessionName` is the five *raw* tokens joined by underscores,
whose `date` and `createDate` are the reformatted `DD/MM/20YY` strings, and
whose `time` is `HH:MM:SS`. -/
theorem c3_filename_parse (project vehicle dd tt sw cd dn : List Char)
    (hp1 : project ≠ []) (hp2 : '_' ∉ project)
    (hv1 : vehicle ≠ []) (hv2 : '_' ∉ vehicle)
    (hd1 : dd.length = 6) (hd2 : ∀ x ∈ dd, x.isDigit = true)
    (ht1 : tt.length = 6) (ht2 : ∀ x ∈ tt, x.isDigit = true)
    (hs1 : sw ≠ []) (hs2 : ∀ x ∈ sw, x.isDigit = true)
    (hc1 : cd.length = 6) (hc2 : ∀ x ∈ cd, x.isDigit = true)
    (hn1 : dn ≠ []) (hn2 : ∀ x ∈ dn, x.isDigit = true) :
    parseFileName ⟨project ++ '_' :: (vehicle ++ '_' :: (dd ++ '_' :: (tt ++ '_' ::
        (sw ++ '_' :: (cd ++ '_' :: ("DATACO-".data ++ dn ++ ".jump".data))))))⟩ =
      some { project := ⟨project⟩, vehicle := ⟨vehicle⟩,
             date := ⟨dd.take 2⟩ ++ "/" ++ ⟨(dd.drop 2).take 2⟩ ++ "/" ++ ("20" ++ ⟨dd.drop 4⟩),
             time := ⟨tt.take 2⟩ ++ ":" ++ ⟨(tt.drop 2).take 2⟩ ++ ":" ++ ⟨tt.drop 4⟩,
             swVersion := ⟨sw⟩,
             createDate := ⟨cd.take 2⟩ ++ "/" ++ ⟨(cd.drop 2).take 2⟩ ++ "/" ++ ("20" ++ ⟨cd.drop 4⟩),
             datacoNumber := ⟨dn⟩,
             sessionName := ⟨project⟩ ++ "_" ++ ⟨vehicle⟩ ++ "_" ++ ⟨dd⟩ ++ "_" ++
               ⟨tt⟩ ++ "_" ++ ⟨sw⟩ } := by
  have h1 := splitField_append project
    (vehicle ++ '_' :: (dd ++ '_' :: (tt ++ '_' :: (sw ++ '_' ::
      (cd ++ '_' :: ("DATACO-".data ++ dn ++ ".jump".data)))))) hp1 hp2
  have h2 := splitField_append vehicle
    (dd ++ '_' :: (tt ++ '_' :: (sw ++ '_' ::
      (cd ++ '_' :: ("DATACO-".data ++ dn ++ ".jump".data))))) hv1 hv2
  have h3 := takeSix_append dd
    (tt ++ '_' :: (sw ++ '_' :: (cd ++ '_' :: ("DATACO-".data ++ dn ++ ".jump".data))))
    hd1 hd2
  have h4 := takeSix_append tt
    (sw ++ '_' :: (cd ++ '_' :: ("DATACO-".data ++ dn ++ ".jump".data))) ht1 ht2
  have h5 := takeDigitsU_append sw
    (cd ++ '_' :: ("DATACO-".data ++ dn ++ ".jump".data)) hs1 hs2
  have h6 := takeSix_append cd ("DATACO-".data ++ dn ++ ".jump".data) hc1 hc2
  have h7 := stripLit_append "DATACO-".data (dn ++ ".jump".data)
  have h8 := takeDigitsEnd_append dn ".jump".data hn1 hn2 (head_cons_eq (by decide))
  have hfd : formatDate ⟨dd⟩ =
      ⟨dd.take 2⟩ ++ "/" ++ ⟨(dd.drop 2).take 2⟩ ++ "/" ++ ("20" ++ ⟨dd.drop 4⟩) := by
    unfold formatDate
    rw [if_pos (show (⟨dd⟩ : String).length = 6 from hd1)]
  have hft : formatTime ⟨tt⟩ =
      ⟨tt.take 2⟩ ++ ":" ++ ⟨(tt.drop 2).take 2⟩ ++ ":" ++ ⟨tt.drop 4⟩ := by
    unfold formatTime
    rw [if_pos (show (⟨tt⟩ : String).length = 6 from ht1)]
  have hfc : formatDate ⟨cd⟩ =
      ⟨cd.take 2⟩ ++ "/" ++ ⟨(cd.drop 2).take 2⟩ ++ "/" ++ ("20" ++ ⟨cd.drop 4⟩) := by
    unfold formatDate
    rw [if_pos (show (⟨cd⟩ : String).length = 6 from hc1)]
  have h7' : stripLit ['D', 'A', 'T', 'A', 'C', 'O', '-']
      ('D' :: 'A' :: 'T' :: 'A' :: 'C' :: 'O' :: '-' :: (dn ++ ['.', 'j', 'u', 'm', 'p'])) =
      some (dn ++ ['.', 'j', 'u', 'm', 'p']) := by
    simpa using h7
  have h8' : takeDigitsEnd (dn ++ ['.', 'j', 'u', 'm', 'p']) =
      some (dn, ['.', 'j', 'u', 'm', 'p']) := by
    simpa using h8
  simp only [parseFileName, h1, h2, h3, h4, h5, h6, hfd, hft, hfc,
    Option.bind_eq_bind, Option.some_bind]
  simp [h7', h8']

theorem splitField_sound {cs p r : List Char} (h : splitField cs = some (p, r)) :
    cs = p ++ '_' :: r ∧ p ≠ [] ∧ '_' ∉ p := by
  unfold splitField at h
  split at h
  · split at h
    · exact absurd h (by simp)
    · rename_i x1 p' r' heq hcond
      have hp' : p' = p := congrArg Prod.fst (Option.some.inj h)
      have hr' : r' = r := congrArg Prod.snd (Option.some.inj h)
      subst hp' hr'
      obtain ⟨he, ha⟩ := takeRun_parts heq
      exact ⟨he, isEmpty_false_ne hcond, ne_underscore_notMem ha⟩
  · exact absurd h (by simp)

theorem takeSix_sound {cs d r : List Char} (h : takeSix cs = some (d, r)) :
    cs = d ++ '_' :: r ∧ d.length = 6 ∧ ∀ x ∈ d, x.isDigit = true := by
  simp only [takeSix] at h
  split at h
  case isFalse => exact absurd h (by simp)
  case isTrue hcond =>
    split at h
    case h_2 => exact absurd h (by simp)
    case h_1 r' heq =>
      have hd' : cs.take 6 = d := congrArg Prod.fst (Option.some.inj h)
      have hr' : r' = r := congrArg Prod.snd (Option.some.inj h)
      subst hr'
      simp only [Bool.and_eq_true, decide_eq_true_eq, List.all_eq_true] at hcond
      refine ⟨?_, by rw [← hd']; exact hcond.1, by rw [← hd']; exact hcond.2⟩
      rw [← hd', ← heq]
      exact (List.take_append_drop 6 cs).symm

theorem takeDigitsU_sound {cs d r : List Char} (h : takeDigitsU cs = some (d, r)) :
    cs = d ++ '_' :: r ∧ d ≠ [] ∧ ∀ x ∈ d, x.isDigit = true := by
  unfold takeDigitsU at h
  split at h
  · split at h
    · exact absurd h (by simp)
    · rename_i x1 d' r' heq hcond
      have hd' : d' = d := congrArg Prod.fst (Option.some.inj h)
      have hr' : r' = r := congrArg Prod.snd (Option.some.inj h)
      subst hd' hr'
      obtain ⟨he, ha⟩ := takeRun_parts heq
      exact ⟨he, isEmpty_false_ne hcond, ha⟩
  · exact absurd h (by simp)

theorem takeDigitsEnd_sound {cs d r : List Char} (h : takeDigitsEnd cs = some (d, r)) :
    cs = d ++ r ∧ d ≠ [] ∧ ∀ x ∈ d, x.isDigit = true := by
  simp only [takeDigitsEnd] at h
  split at h
  · exact absurd h (by simp)
  · rename_i hcond
    have hd' : cs.takeWhile Char.isDigit = d := congrArg Prod.fst (Option.some.inj h)
    have hr' : cs.dropWhile Char.isDigit = r := congrArg Prod.snd (Option.some.inj h)
    refine ⟨?_, ?_, ?_⟩
    · rw [← hd', ← hr']
      exact (List.takeWhile_append_dropWhile Char.isDigit cs).symm
    · intro hdnil
      apply hcond
      show (cs.takeWhile Char.isDigit).isEmpty = true
      rw [hd', hdnil]
      rfl
    · intro x hx
      rw [← hd'] at hx
      exact List.mem_takeWhile_imp hx

theorem stripLit_sound {lit cs r : List Char} (h : stripLit lit cs = some r) :
    cs = lit ++ r := by
  unfold stripLit at h
  split at h
  · rename_i hsw
    have hr : cs.drop lit.length = r := Option.some.inj h
    rw [← hr]
    exact startsWithL_eq_append hsw
  · exact absurd h (by simp)

theorem parseFileName_sound {name : String} {m : JumpFileMetadata}
    (h : parseFileName name = some m) : MatchesGrammar name := by
  unfold parseFileName at h
  cases e1 : splitField name.data with
  | none => rw [e1] at h; exact absurd h (by simp)
  | some pr1 =>
  obtain ⟨project, r1⟩ := pr1
  rw [e1] at h
  simp only [Option.bind_eq_bind, Option.some_bind] at h
  cases e2 : splitField r1 with
  | none => rw [e2] at h; exact absurd h (by simp)
  | some pr2 =>
  obtain ⟨vehicle, r2⟩ := pr2
  rw [e2] at h
  simp only [Option.bind_eq_bind, Option.some_bind] at h
  cases e3 : takeSix r2 with
  | none => rw [e3] at h; exact absurd h (by simp)
  | some pr3 =>
  obtain ⟨dd, r3⟩ := pr3
  rw [e3] at h
  simp only [Option.bind_eq_bind, Option.some_bind] at h
  cases e4 : takeSix r3 with
  | none => rw [e4] at h; exact absurd h (by simp)
  | some pr4 =>
  obtain ⟨tt, r4⟩ := pr4
  rw [e4] at h
  simp only [Option.bind_eq_bind, Option.some_bind] at h
  cases e5 : takeDigitsU r4 with
  | none => rw [e5] at h; exact absurd h (by simp)
  | some pr5 =>
  obtain ⟨sw, r5⟩ := pr5
  rw [e5] at h
  simp only [Option.bind_eq_bind, Option.some_bind] at h
  cases e6 : takeSix r5 with
  | none => rw [e6] at h; exact absurd h (by simp)
  | some pr6 =>
  obtain ⟨cd, r6⟩ := pr6
  rw [e6] at h
  simp only [Option.bind_eq_bind, Option.some_bind] at h
  cases e7 : stripLit "DATACO-".data r6 with
  | none => rw [e7] at h; exact absurd h (by simp)
  | some r7 =>
  rw [e7] at h
  simp only [Option.bind_eq_bind, Option.some_bind] at h
  cases e8 : takeDigitsEnd r7 with
  | none => rw [e8] at h; exact absurd h (by simp)
  | some pr8 =>
  obtain ⟨dn, r8⟩ := pr8
  rw [e8] at h
  simp only [Option.bind_eq_bind, Option.some_bind] at h
  split at h
  case isFalse => exact absurd h (by simp)
  case isTrue hjump =>
  obtain ⟨g1, g2, g3⟩ := splitField_sound e1
  obtain ⟨g4, g5, g6⟩ := splitField_sound e2
  obtain ⟨g7, g8, g9⟩ := takeSix_sound e3
  obtain ⟨g10, g11, g12⟩ := takeSix_sound e4
  obtain ⟨g13, g14, g15⟩ := takeDigitsU_sound e5
  obtain ⟨g16, g17, g18⟩ := takeSix_sound e6
  have g19 := stripLit_sound e7
  obtain ⟨g20, g21, g22⟩ := takeDigitsEnd_sound e8
  refine ⟨project, vehicle, dd, tt, sw, cd, dn, ?_, g2, g3, g5, g6, g8, g9,
    g11, g12, g14, g15, g17, g18, g21, g22⟩
  rw [g1, g4, g7, g10, g13, g16, g19, g20, hjump]
  rfl

/-- **C5** — For every filename string that does not match the artifact
grammar, the filename parser returns `none` (and, being a total function of
the embedding, never raises), and the tree scanner silently excludes any file
for which the parser returns `none` from the results instead of treating it
as an error. -/
theorem c5_nonmatching_excluded :
    (∀ name : String, ¬ MatchesGrammar name → parseFileName name = none) ∧
    (∀ (dirPath : String) (subtasks : List String) (name : String) (readable : Bool)
        (sz mt : Nat) (content : String), parseFileName name = none →
        scanEntry dirPath subtasks (.file name readable sz mt content) = []) := by
  constructor
  · intro name hnm
    cases hp : parseFileName name with
    | none => rfl
    | some m => exact absurd (parseFileName_sound hp) hnm
  · intro dirPath subtasks name readable sz mt content hp
    simp only [scanEntry, processFile, hp]
    split <;> rfl

/-- Witness for **C5** at the concrete non-matching filename `README.md`
(it contains no underscore, so no grammar decomposition exists). -/
theorem c5_nonmatching_excluded_witness :
    parseFileName "README.md" = none ∧
    scanEntry "/p" ["42"] (.file "README.md" true 1 2 "x") = [] := by
  have hnm : ¬ MatchesGrammar "README.md" := by
    rintro ⟨p, v, dd, tt, sw, cd, dn, heq, -⟩
    have hmem : ('_' : Char) ∈ "README.md".data := by
      rw [heq]
      exact List.mem_append_right _ (List.mem_cons_self _ _)
    exact absurd hmem (by decide)
  have h1 := c5_nonmatching_excluded.1 "README.md" hnm
  exact ⟨h1, c5_nonmatching_excluded.2 "/p" ["42"] "README.md" true 1 2 "x" h1⟩

/-- Witness for **C3** at the concrete tokens of the specification's example
filename `PRJ_VEH_010124_120000_5_020124_DATACO-42.jump`. -/
theorem c3_filename_parse_witness :
    parseFileName ⟨"PRJ".data ++ '_' :: ("VEH".data ++ '_' :: ("010124".data ++ '_' ::
        ("120000".data ++ '_' :: ("5".data ++ '_' :: ("020124".data ++ '_' ::
        ("DATACO-".data ++ "42".data ++ ".jump".data))))))⟩ =
      some { project := ⟨"PRJ".data⟩, vehicle := ⟨"VEH".data⟩,
             date := ⟨"010124".data.take 2⟩ ++ "/" ++ ⟨("010124".data.drop 2).take 2⟩ ++
               "/" ++ ("20" ++ ⟨"010124".data.drop 4⟩),
             time := ⟨"120000".data.take 2⟩ ++ ":" ++ ⟨("120000".data.drop 2).take 2⟩ ++
               ":" ++ ⟨"120000".data.drop 4⟩,
             swVersion := ⟨"5".data⟩,
             createDate := ⟨"020124".data.take 2⟩ ++ "/" ++ ⟨("020124".data.drop 2).take 2⟩ ++
               "/" ++ ("20" ++ ⟨"020124".data.drop 4⟩),
             datacoNumber := ⟨"42".data⟩,
             sessionName := ⟨"PRJ".data⟩ ++ "_" ++ ⟨"VEH".data⟩ ++ "_" ++ ⟨"010124".data⟩ ++
               "_" ++ ⟨"120000".data⟩ ++ "_" ++ ⟨"5".data⟩ } :=
  c3_filename_parse "PRJ".data "VEH".data "010124".data "120000".data "5".data
    "020124".data "42".data
    (by decide) (by decide) (by decide) (by decide) (by decide) (by decide)
    (by decide) (by decide) (by decide) (by decide) (by decide) (by decide)
    (by decide) (by decide)

end JumpScan
